import Mathlib

/-!
Shallow embedding of the freelancer time tracker core (src/src/app/page.tsx):
the state model, the reducer, rate resolution, report filtering, invoice
building and the delimited-text exporter, together with theorems checking
the natural-language specification against this embedding.

Numbers: epoch instants and durations are `Int` (milliseconds); currency
and hour values are `ℚ`, with `round2` modelling `+x.toFixed(2)`.
JavaScript truthiness on optional strings / numbers is modelled explicitly
(`jsOrStr`, `jsOrQ`, `truthyId`).
-/

namespace Tracker

/- Batteries marks the core rational operations `@[irreducible]`, which
blocks `decide`/`rfl` evaluation of concrete rational arithmetic; the
proofs below only need them to reduce, which is sound (reducibility
settings never reach the kernel). -/
set_option allowUnsafeReducibility true
attribute [local semireducible] Rat.add Rat.mul Rat.inv Rat.sub

/-- Model of `+x.toFixed(2)`: round to two decimal places (half up). -/
def round2 (q : ℚ) : ℚ := (⌊q * 100 + 1 / 2⌋ : ℚ) / 100

/-- Model of `hoursFromMs`: `+(ms / 1000 / 3600).toFixed(2)`. -/
def hoursFromMs (ms : Int) : ℚ := round2 ((ms : ℚ) / 1000 / 3600)

/-- Model of the JavaScript `a || b` fallback on an optional string:
`undefined` and the empty string are falsy. -/
def jsOrStr (a : Option String) (b : String) : String :=
  match a with
  | none => b
  | some s => if s = "" then b else s

/-- Model of the JavaScript `a || b` fallback on a number: `0` is falsy. -/
def jsOrQ (a b : ℚ) : ℚ := if a = 0 then b else a

/-- Truthiness of an optional identifier: `undefined` and `""` are falsy. -/
def truthyId (a : Option String) : Option String :=
  match a with
  | none => none
  | some s => if s = "" then none else some s

structure Client where
  id : String
  name : String
  email : Option String
  rate : Option ℚ
  color : Option String
  active : Bool
deriving DecidableEq

structure Project where
  id : String
  clientId : String
  name : String
  rate : Option ℚ
  color : Option String
  archived : Bool
deriving DecidableEq

/-- Model of `TimeEntry`; `endTime` models the source field `end`
(a Lean keyword). -/
structure TimeEntry where
  id : String
  clientId : String
  projectId : String
  start : Int
  endTime : Option Int
  durationMs : Int
  notes : Option String
  tags : List String
  billable : Bool
deriving DecidableEq

structure LineItem where
  projectId : String
  description : String
  hours : ℚ
  rate : ℚ
  amount : ℚ
deriving DecidableEq

structure Invoice where
  id : String
  number : String
  clientId : String
  date : String
  dueDate : Option String
  taxRate : Option ℚ
  status : String
  lineItems : List LineItem
  subtotal : ℚ
  tax : ℚ
  total : ℚ
deriving DecidableEq

/-- Model of the `runningTimer` payload / stored active timer. -/
structure Timer where
  clientId : Option String
  projectId : Option String
  notes : Option String
  billable : Bool
  start : Int
deriving DecidableEq

structure AppState where
  clients : List Client
  projects : List Project
  entries : List TimeEntry
  invoices : List Invoice
  runningTimer : Option Timer
deriving DecidableEq

/-- Model of the tagged actions handled by `reducer`.  `stopTimer` carries
only the `end` instant, as in the source; the fresh entry identifier
produced there by `uid("entry")` is a parameter of the reducer. -/
inductive Action where
  | addClient (payload : Client)
  | updateClient (payload : Client)
  | deleteClient (id : String)
  | addProject (payload : Project)
  | updateProject (payload : Project)
  | deleteProject (id : String)
  | addEntry (payload : TimeEntry)
  | updateEntry (payload : TimeEntry)
  | deleteEntry (id : String)
  | startTimer (payload : Timer)
  | stopTimer (endMs : Int)
  | resetTimer
  | addInvoice (payload : Invoice)
  | updateInvoice (payload : Invoice)
  | deleteInvoice (id : String)

/-- Model of `reducer(state, action)`.  `fresh` stands for the identifier
`uid("entry")` generates in the `STOP_TIMER` case. -/
def reducer (fresh : String) (state : AppState) (action : Action) : AppState :=
  match action with
  | .addClient p => { state with clients := p :: state.clients }
  | .updateClient p =>
      { state with clients := state.clients.map fun c => if c.id = p.id then p else c }
  | .deleteClient i =>
      { state with
        projects := state.projects.filter fun p => p.clientId ≠ i
        entries := state.entries.filter fun e => e.clientId ≠ i
        clients := state.clients.filter fun c => c.id ≠ i }
  | .addProject p => { state with projects := p :: state.projects }
  | .updateProject p =>
      { state with projects := state.projects.map fun q => if q.id = p.id then p else q }
  | .deleteProject i =>
      { state with
        entries := state.entries.filter fun e => e.projectId ≠ i
        projects := state.projects.filter fun p => p.id ≠ i }
  | .addEntry p => { state with entries := p :: state.entries }
  | .updateEntry p =>
      { state with entries := state.entries.map fun e => if e.id = p.id then p else e }
  | .deleteEntry i => { state with entries := state.entries.filter fun e => e.id ≠ i }
  | .startTimer p => { state with runningTimer := some p }
  | .stopTimer endMs =>
      match state.runningTimer with
      | none => state
      | some t =>
          let durationMs := max 0 (endMs - t.start)
          let entry : TimeEntry :=
            { id := fresh
              clientId := jsOrStr t.clientId "unassigned_client"
              projectId := jsOrStr t.projectId "unassigned_project"
              start := t.start
              endTime := some endMs
              durationMs := durationMs
              notes := t.notes
              tags := []
              billable := t.billable }
          { state with runningTimer := none, entries := entry :: state.entries }
  | .resetTimer => { state with runningTimer := none }
  | .addInvoice p => { state with invoices := p :: state.invoices }
  | .updateInvoice p =>
      { state with invoices := state.invoices.map fun i => if i.id = p.id then p else i }
  | .deleteInvoice i => { state with invoices := state.invoices.filter fun v => v.id ≠ i }

/-- Model of the `startTimer` handler: it returns early when a timer is
already running and otherwise dispatches `START_TIMER` with the current
selection. -/
def startTimer (state : AppState) (sel : Timer) : AppState :=
  if state.runningTimer.isSome then state
  else reducer "" state (Action.startTimer sel)

/-- Model of the `stopTimer` handler: it returns early when no timer is
running and otherwise dispatches `STOP_TIMER`. -/
def stopTimer (fresh : String) (state : AppState) (endMs : Int) : AppState :=
  if state.runningTimer.isNone then state
  else reducer fresh state (Action.stopTimer endMs)

/-- Empty initial state returned by `loadState` on absent or malformed
persisted data. -/
def emptyState : AppState :=
  { clients := [], projects := [], entries := [], invoices := [], runningTimer := none }

/-- Shape of a successfully parsed persisted snapshot.  The outer
`Option` on `runningTimer` records whether the JSON object carried the
`runningTimer` key at all (JSON.stringify drops `undefined`-valued keys,
so the key may be absent), the inner one its value (`null` or a timer). -/
structure ParsedState where
  clients : List Client
  projects : List Project
  entries : List TimeEntry
  invoices : List Invoice
  runningTimer : Option (Option Timer)
deriving DecidableEq

/-- Possible outcomes of reading and JSON-parsing the persisted string:
no stored value, a string JSON.parse throws on, or a parsed snapshot. -/
inductive RawPersisted where
  | absent
  | malformed
  | parsed (p : ParsedState)

/-- Model of `loadState`: absent or malformed input falls back to the
empty state; otherwise the result is `{ runningTimer: null, ...parsed }`,
so a `runningTimer` key present in the parsed object overrides the
`null` default. -/
def loadState (raw : RawPersisted) : AppState :=
  match raw with
  | .absent => emptyState
  | .malformed => emptyState
  | .parsed p =>
      { clients := p.clients
        projects := p.projects
        entries := p.entries
        invoices := p.invoices
        runningTimer :=
          match p.runningTimer with
          | none => none
          | some rt => rt }

/-- Model of `persistState`: the stored JSON carries all four collections
and the `runningTimer` key (kept as is). -/
def persistState (state : AppState) : ParsedState :=
  { clients := state.clients
    projects := state.projects
    entries := state.entries
    invoices := state.invoices
    runningTimer := some state.runningTimer }

/-- Model of building a JavaScript `Map` from a list keyed by `key`:
with duplicate keys the last binding wins, which `reverse.find?`
reproduces. -/
def mapGet (key : α → String) (l : List α) (k : String) : Option α :=
  l.reverse.find? fun x => key x = k

/-- Client half of `rateFor`: the client default rate when the client id
is truthy, the client exists and its rate is truthy (defined and
non-zero), else 0. -/
def rateForClient (clients : List Client) (clientId : Option String) : ℚ :=
  match truthyId clientId with
  | some cid =>
      match mapGet Client.id clients cid with
      | some c =>
          match c.rate with
          | some r => if r = 0 then 0 else r
          | none => 0
      | none => 0
  | none => 0

/-- Model of `rateFor(projectId?, clientId?)`: the project override rate
when the project id is truthy, the project exists and its rate is truthy
(defined and non-zero); else the client default rate under the same
truthiness tests; else 0. -/
def rateFor (projects : List Project) (clients : List Client)
    (projectId clientId : Option String) : ℚ :=
  match truthyId projectId with
  | some pid =>
      match mapGet Project.id projects pid with
      | some proj =>
          match proj.rate with
          | some r => if r = 0 then rateForClient clients clientId else r
          | none => rateForClient clients clientId
      | none => rateForClient clients clientId
  | none => rateForClient clients clientId

/-- Modelled from the spec (client half of §4.2): the client's default
rate if the client exists and its rate is defined, else 0. -/
def effectiveRateSpecClient (clients : List Client) (clientId : Option String) : ℚ :=
  match clientId.bind (mapGet Client.id clients) with
  | some c => c.rate.getD 0
  | none => 0

/-- Modelled from the spec: `effectiveRate(projectId?, clientId?)` as
§4.2 words it — the project's override rate if the project exists and
has a non-zero/defined rate; else the client's default rate if defined;
else 0.  Used only to compare with the source's `rateFor`. -/
def effectiveRateSpec (projects : List Project) (clients : List Client)
    (projectId clientId : Option String) : ℚ :=
  match projectId.bind (mapGet Project.id projects) with
  | some proj =>
      match proj.rate with
      | some r =>
          if r = 0 then effectiveRateSpecClient clients clientId else r
      | none => effectiveRateSpecClient clients clientId
  | none => effectiveRateSpecClient clients clientId

/-- Date-range lower bound: `fromDate ? new Date(fromDate).getTime() : -Infinity`.
The bound is the parsed day-start instant; `none` behaves as negative
infinity. -/
def fromOk (fromBound : Option Int) (e : TimeEntry) : Prop :=
  match fromBound with
  | none => True
  | some d => d ≤ e.start

/-- Date-range upper bound: `toDate ? new Date(toDate).getTime() + 24*3600*1000 - 1 : Infinity`
compared against `e.end ?? e.start`; `none` behaves as positive infinity. -/
def toOk (toBound : Option Int) (e : TimeEntry) : Prop :=
  match toBound with
  | none => True
  | some d => e.endTime.getD e.start ≤ d + 24 * 3600 * 1000 - 1

instance (b : Option Int) (e : TimeEntry) : Decidable (fromOk b e) := by
  unfold fromOk; cases b <;> infer_instance

instance (b : Option Int) (e : TimeEntry) : Decidable (toOk b e) := by
  unfold toOk; cases b <;> infer_instance

/-- Model of `filteredEntries`: the entries whose `start` is at or after
the lower bound and whose `end ?? start` is at or before the upper
bound (the parsed upper date plus `24*3600*1000 - 1`). -/
def filteredEntries (entries : List TimeEntry) (fromBound toBound : Option Int) :
    List TimeEntry :=
  entries.filter fun e => decide (fromOk fromBound e) && decide (toOk toBound e)

/-- Model of `invoiceEntries`: empty when no client is selected, else the
entries of that client that are billable and inside the date range. -/
def invoiceEntries (entries : List TimeEntry) (invoiceClient : Option String)
    (fromBound toBound : Option Int) : List TimeEntry :=
  match truthyId invoiceClient with
  | none => []
  | some c =>
      entries.filter fun e =>
        e.clientId = c && e.billable && decide (fromOk fromBound e) && decide (toOk toBound e)

/-- Accumulator value of the `invoiceLines` grouping map. -/
structure LineAcc where
  hours : ℚ
  rate : ℚ
  name : String
deriving DecidableEq

/-- Model of JavaScript `Map.get` on the grouping map. -/
def accGet (m : List (String × LineAcc)) (k : String) : Option LineAcc :=
  (m.find? fun p => p.1 = k).map Prod.snd

/-- Model of JavaScript `Map.set` on the grouping map: replace the
existing binding in place, else append. -/
def accSet (m : List (String × LineAcc)) (k : String) (v : LineAcc) :
    List (String × LineAcc) :=
  match m with
  | [] => [(k, v)]
  | (k1, v1) :: rest => if k1 = k then (k, v) :: rest else (k1, v1) :: accSet rest k v

/-- Model of the project name fallback `projectMap.get(id)?.name || "Unassigned"`. -/
def projName (projects : List Project) (pid : String) : String :=
  match mapGet Project.id projects pid with
  | some p => if p.name = "" then "Unassigned" else p.name
  | none => "Unassigned"

/-- Model of the client name fallback `clientMap.get(id)?.name || "Unassigned"`. -/
def clientName (clients : List Client) (cid : String) : String :=
  match mapGet Client.id clients cid with
  | some c => if c.name = "" then "Unassigned" else c.name
  | none => "Unassigned"

/-- Model of the `for (const e of invoiceEntries)` grouping loop of
`invoiceLines`: per entry, the resolved rate, the per-entry rounded
hours `hoursFromMs(e.durationMs)`, and the `Map.set` update
`{hours: prev.hours + hours, rate: rate || prev.rate, name}`. -/
def invoiceLinesFold (projects : List Project) (clients : List Client) :
    List TimeEntry → List (String × LineAcc) → List (String × LineAcc)
  | [], m => m
  | e :: rest, m =>
      let rate := rateFor projects clients (some e.projectId) (some e.clientId)
      let hours := hoursFromMs e.durationMs
      let name := projName projects e.projectId
      let prev := (accGet m e.projectId).getD { hours := 0, rate := rate, name := name }
      invoiceLinesFold projects clients rest
        (accSet m e.projectId
          { hours := prev.hours + hours, rate := jsOrQ rate prev.rate, name := name })

/-- Model of `invoiceLines` applied to an already-filtered entry list:
group, then render each group as a line item with
`hours: +v.hours.toFixed(2)`, `rate: v.rate || 0` and
`amount: +(v.hours * (v.rate || 0)).toFixed(2)`. -/
def invoiceLinesOf (projects : List Project) (clients : List Client)
    (grouped : List TimeEntry) : List LineItem :=
  (invoiceLinesFold projects clients grouped []).map fun p =>
    { projectId := p.1
      description := "Work on " ++ p.2.name
      hours := round2 p.2.hours
      rate := jsOrQ p.2.rate 0
      amount := round2 (p.2.hours * jsOrQ p.2.rate 0) }

/-- Model of `invoiceSubtotal`: `invoiceLines.reduce((sum, l) => sum + l.amount, 0)`. -/
def invoiceSubtotalOf (lines : List LineItem) : ℚ :=
  lines.foldl (fun sum l => sum + l.amount) 0

/-- Model of `invoiceTax`: `+(invoiceSubtotal * (taxRate / 100)).toFixed(2)`. -/
def invoiceTaxOf (subtotal taxRate : ℚ) : ℚ := round2 (subtotal * (taxRate / 100))

/-- Model of `invoiceTotal`: `+(invoiceSubtotal + invoiceTax).toFixed(2)`. -/
def invoiceTotalOf (subtotal tax : ℚ) : ℚ := round2 (subtotal + tax)

/-- Model of `createInvoice` (data part): package the derived lines and
totals into a draft invoice.  `freshId`, `numberStr` and `dateStr` stand
for `uid("inv")`, the generated invoice number and today's ISO date. -/
def createInvoice (projects : List Project) (clients : List Client)
    (entries : List TimeEntry) (invoiceClient : Option String)
    (fromBound toBound : Option Int) (taxRate : ℚ)
    (freshId numberStr dateStr : String) (dueDate : Option String) : Invoice :=
  let lines := invoiceLinesOf projects clients
    (invoiceEntries entries invoiceClient fromBound toBound)
  let subtotal := invoiceSubtotalOf lines
  let tax := invoiceTaxOf subtotal taxRate
  let total := invoiceTotalOf subtotal tax
  { id := freshId
    number := numberStr
    clientId := invoiceClient.getD ""
    date := dateStr
    dueDate := dueDate
    taxRate := some taxRate
    status := "draft"
    lineItems := lines
    subtotal := round2 subtotal
    tax := round2 tax
    total := round2 total }

/-- Characters that force quoting in the exporter (the regex `[",\n]`). -/
def cleanChar (c : Char) : Prop := c ≠ ',' ∧ c ≠ '"' ∧ c ≠ '\n'

instance (c : Char) : Decidable (cleanChar c) := by unfold cleanChar; infer_instance

/-- Predicate: no character of `s` needs delimited-text quoting. -/
def clean (s : List Char) : Prop := ∀ c ∈ s, cleanChar c

/-- Decimal digit character. -/
def digitChar (d : Nat) : Char :=
  if d = 0 then '0' else if d = 1 then '1' else if d = 2 then '2'
  else if d = 3 then '3' else if d = 4 then '4' else if d = 5 then '5'
  else if d = 6 then '6' else if d = 7 then '7' else if d = 8 then '8' else '9'

/-- Decimal digits of a natural number, fuelled. -/
def natCharsAux : Nat → Nat → List Char
  | 0, _ => []
  | fuel + 1, n =>
      if n < 10 then [digitChar n]
      else natCharsAux fuel (n / 10) ++ [digitChar (n % 10)]

/-- Decimal digits of a natural number (model of JS number-to-string for
naturals). -/
def natChars (n : Nat) : List Char := natCharsAux (n + 1) n

/-- Model of `String(v).padStart(k, "0")`. -/
def padNum (k : Nat) (n : Nat) : List Char :=
  List.replicate (k - (natChars n).length) '0' ++ natChars n

/-- Civil calendar date from a day number relative to 1970-01-01
(the days-to-date conversion `Date.prototype.toISOString` performs). -/
def civilFromDays (z0 : Int) : Int × Nat × Nat :=
  let z := z0 + 719468
  let era : Int := (if 0 ≤ z then z else z - 146096) / 146097
  let doe : Nat := (z - era * 146097).toNat
  let yoe : Nat := (doe - doe / 1460 + doe / 36524 - doe / 146096) / 365
  let y : Int := (yoe : Int) + era * 400
  let doy : Nat := doe - (365 * yoe + yoe / 4 - yoe / 100)
  let mp : Nat := (5 * doy + 2) / 153
  let d : Nat := doy - (153 * mp + 2) / 5 + 1
  let m : Nat := if mp < 10 then mp + 3 else mp - 9
  (if m ≤ 2 then y + 1 else y, m, d)

/-- Year part of an ISO timestamp (expanded-year forms outside 0..9999). -/
def yearChars (y : Int) : List Char :=
  if y < 0 then '-' :: padNum 6 (-y).toNat
  else if 9999 < y then '+' :: padNum 6 y.toNat
  else padNum 4 y.toNat

/-- Date half of an ISO timestamp, from the day number. -/
def isoYMD (day : Int) : List Char :=
  yearChars (civilFromDays day).1 ++
    '-' :: padNum 2 (civilFromDays day).2.1 ++ '-' :: padNum 2 (civilFromDays day).2.2

/-- Time half of an ISO timestamp, from the millisecond of the day. -/
def isoHMS (msod : Nat) : List Char :=
  'T' :: padNum 2 (msod / 3600000) ++ ':' :: padNum 2 (msod % 3600000 / 60000) ++
    ':' :: padNum 2 (msod % 60000 / 1000) ++ '.' :: padNum 3 (msod % 1000) ++ ['Z']

/-- Model of `new Date(ms).toISOString()`. -/
def isoString (ms : Int) : List Char :=
  isoYMD (Int.fdiv ms 86400000) ++ isoHMS (ms - Int.fdiv ms 86400000 * 86400000).toNat

/-- Fractional decimal digits of `r / d`, fuelled. -/
def fracChars : Nat → Nat → Nat → List Char
  | 0, _, _ => []
  | fuel + 1, r, d =>
      if r = 0 then []
      else digitChar (r * 10 / d) :: fracChars fuel (r * 10 % d) d

/-- Decimal rendering of a rational (stands in for JS number-to-string;
the theorems only depend on its output containing no delimiter
characters). -/
def renderRat (q : ℚ) : List Char :=
  (if q < 0 then ['-'] else []) ++ natChars (q.num.natAbs / q.den) ++
    (if q.num.natAbs % q.den = 0 then []
     else '.' :: fracChars 20 (q.num.natAbs % q.den) q.den)

/-- Model of the quoting test `/[",\n]/.test(s)`. -/
def needsWrap (s : List Char) : Bool := s.any fun c => c = ',' || c = '"' || c = '\n'

/-- Model of `s.replaceAll('"', '""')`. -/
def escQ : List Char → List Char
  | [] => []
  | c :: rest => if c = '"' then '"' :: '"' :: escQ rest else c :: escQ rest

/-- Model of `wrap`: quote the field, doubling internal quotes, exactly
when it contains a comma, quote or newline. -/
def wrap (s : List Char) : List Char :=
  if needsWrap s then '"' :: (escQ s ++ ['"']) else s

/-- Model of `Array.prototype.join(sep)`. -/
def joinSep (sep : List Char) : List (List Char) → List Char
  | [] => []
  | [x] => x
  | x :: xs => x ++ sep ++ joinSep sep xs

/-- Header fields of the export. -/
def headerFields : List (List Char) :=
  ["Entry ID", "Client", "Project", "Start", "End", "Duration(h)", "Billable",
    "Notes", "Rate", "Amount"].map String.data

/-- Resolved rate of one exported entry: `rateFor(e.projectId, e.clientId)`. -/
def entryRate (projects : List Project) (clients : List Client) (e : TimeEntry) : ℚ :=
  rateFor projects clients (some e.projectId) (some e.clientId)

/-- Exported amount of one entry: `+(rate * hoursFromMs(e.durationMs)).toFixed(2)`. -/
def entryAmount (projects : List Project) (clients : List Client) (e : TimeEntry) : ℚ :=
  round2 (entryRate projects clients e * hoursFromMs e.durationMs)

/-- Model of `e.end ? new Date(e.end).toISOString() : ""` (0 is falsy). -/
def endField (e : TimeEntry) : List Char :=
  match e.endTime with
  | some t => if t = 0 then [] else isoString t
  | none => []

/-- Unescaped field values of one exported row, in column order. -/
def entryFields (projects : List Project) (clients : List Client) (e : TimeEntry) :
    List (List Char) :=
  [e.id.data,
    (clientName clients e.clientId).data,
    (projName projects e.projectId).data,
    isoString e.start,
    endField e,
    renderRat (hoursFromMs e.durationMs),
    (if e.billable then "Yes" else "No").data,
    (e.notes.getD "").data,
    renderRat (entryRate projects clients e),
    renderRat (entryAmount projects clients e)]

/-- Model of one data row of `exportEntriesCSV`: `wrap` is applied to
the client name, project name and notes fields only, the rest are
joined raw. -/
def entryRowText (projects : List Project) (clients : List Client) (e : TimeEntry) :
    List Char :=
  joinSep [','] [e.id.data,
    wrap (clientName clients e.clientId).data,
    wrap (projName projects e.projectId).data,
    isoString e.start,
    endField e,
    renderRat (hoursFromMs e.durationMs),
    (if e.billable then "Yes" else "No").data,
    wrap (e.notes.getD "").data,
    renderRat (entryRate projects clients e),
    renderRat (entryAmount projects clients e)]

/-- Model of `exportEntriesCSV` (payload only): header row plus one row
per entry, rows joined with a newline. -/
def exportEntriesCSV (projects : List Project) (clients : List Client)
    (entries : List TimeEntry) : List Char :=
  joinSep ['\n']
    (joinSep [','] headerFields :: entries.map (entryRowText projects clients))

/-- State of the standard delimited-text parser: inside quotes, just
after a quote inside a quoted field, current field, current row,
finished rows. -/
structure CsvState where
  inQ : Bool
  afterQ : Bool
  fld : List Char
  row : List (List Char)
  acc : List (List (List Char))
deriving DecidableEq

/-- One character step of the standard delimited-text parser
(RFC-4180-style: quoted fields, doubled quotes, comma and newline
separators). -/
def csvStep (st : CsvState) (c : Char) : CsvState :=
  if st.inQ then
    if c = '"' then { st with inQ := false, afterQ := true }
    else { st with fld := st.fld ++ [c] }
  else if st.afterQ then
    if c = '"' then { st with inQ := true, afterQ := false, fld := st.fld ++ ['"'] }
    else if c = ',' then { st with afterQ := false, row := st.row ++ [st.fld], fld := [] }
    else if c = '\n' then
      { st with afterQ := false, acc := st.acc ++ [st.row ++ [st.fld]], row := [], fld := [] }
    else { st with afterQ := false, fld := st.fld ++ [c] }
  else
    if c = '"' then
      if st.fld = [] then { st with inQ := true } else { st with fld := st.fld ++ [c] }
    else if c = ',' then { st with row := st.row ++ [st.fld], fld := [] }
    else if c = '\n' then
      { st with acc := st.acc ++ [st.row ++ [st.fld]], row := [], fld := [] }
    else { st with fld := st.fld ++ [c] }

/-- Initial parser state. -/
def csvInit : CsvState :=
  { inQ := false, afterQ := false, fld := [], row := [], acc := [] }

/-- Flush of the parser state: emit the trailing row. -/
def csvFlush (st : CsvState) : List (List (List Char)) :=
  st.acc ++ [st.row ++ [st.fld]]

/-- Standard delimited-text parse: run the step machine and flush the
trailing row. -/
def parseCSV (s : List Char) : List (List (List Char)) :=
  csvFlush (s.foldl csvStep csvInit)

/-- Quoting every field of a row and joining with commas (what the
exporter does for a row whose raw fields are all clean). -/
def renderRow (r : List (List Char)) : List Char := joinSep [','] (r.map wrap)

/-- Rendering a grid of fields as delimited text. -/
def renderCSV (rows : List (List (List Char))) : List Char :=
  joinSep ['\n'] (rows.map renderRow)

/-- Model of the entry dialog save handler in the edit case: re-parse
start and end (falling back to the stored values, `0` being falsy in
`entry.end || entry.start` and `endMs || startMs`), re-derive the
duration clamped at 0, and rebuild the entry. -/
def entrySaveEdit (entry : TimeEntry) (clientInp projectInp : String)
    (startInp endInp : Option Int) (notesInp : String) (billableInp : Bool) :
    TimeEntry :=
  let startMs := startInp.getD entry.start
  let endMs :=
    match endInp with
    | some v => v
    | none =>
        match entry.endTime with
        | some t => if t = 0 then entry.start else t
        | none => entry.start
  let durationMs := max 0 ((if endMs = 0 then startMs else endMs) - startMs)
  { entry with
    clientId := if clientInp = "" then entry.clientId else clientInp
    projectId := if projectInp = "" then entry.projectId else projectInp
    start := startMs
    endTime := some endMs
    durationMs := durationMs
    notes := some notesInp
    billable := billableInp }

/-! ### Shared concrete examples -/

/-- Concrete running timer used by witnesses. -/
def exTimer : Timer :=
  { clientId := none, projectId := none, notes := none, billable := true, start := 42 }

/-- Concrete state with an active timer. -/
def exRunningState : AppState :=
  { clients := [], projects := [], entries := [], invoices := [], runningTimer := some exTimer }

/-- Concrete stored entry used by the C10 theorems. -/
def exEditEntry : TimeEntry :=
  { id := "e0", clientId := "c0", projectId := "p0", start := 100,
    endTime := some 200, durationMs := 100, notes := none, tags := [], billable := true }

/-- Concrete entry used by the C7 witness: starts exactly at the lower
bound and ends exactly at the last millisecond of the upper day. -/
def exRangeEntry : TimeEntry :=
  { id := "e7", clientId := "c1", projectId := "p1", start := 86400000,
    endTime := some (86400000 + 24 * 3600 * 1000 - 1), durationMs := 0,
    notes := none, tags := [], billable := true }

/-- Concrete client with default rate 50. -/
def exClients : List Client :=
  [{ id := "c1", name := "Acme", email := none, rate := some 50, color := none,
     active := true }]

/-- Concrete project with override rate 75. -/
def exProjects : List Project :=
  [{ id := "p1", clientId := "c1", name := "Site", rate := some 75, color := none,
     archived := false }]

/-- Concrete project without an override rate. -/
def exProjNoRate : Project :=
  { id := "p1", clientId := "c1", name := "Site", rate := none, color := none,
    archived := false }

/-! ### Rounding infrastructure for the invoice arithmetic -/

/-- Values that are an exact multiple of a hundredth. -/
def isCent (q : ℚ) : Prop := ∃ n : ℤ, q = n / 100

/-- Hours accumulated for key `k`, 0 when the key is absent. -/
def accHours (m : List (String × LineAcc)) (k : String) : ℚ :=
  match accGet m k with
  | some v => v.hours
  | none => 0

/-- Per-entry rounded hours summed over the entries of project `k`. -/
def sumHours (es : List TimeEntry) (k : String) : ℚ :=
  ((es.filter fun e => e.projectId = k).map fun e => hoursFromMs e.durationMs).sum

/-- Entries of half a minute (18000 ms = 0.005 h, which rounds to 0.01
per entry but whose doubled sum is 0.01 h before rounding). -/
def exE1 : TimeEntry :=
  { id := "a1", clientId := "c1", projectId := "p1", start := 0, endTime := some 18000,
    durationMs := 18000, notes := none, tags := [], billable := true }

/-- Second half-minute entry of the same project. -/
def exE2 : TimeEntry :=
  { id := "a2", clientId := "c1", projectId := "p1", start := 0, endTime := some 18000,
    durationMs := 18000, notes := none, tags := [], billable := true }

/-- Concrete line produced for the two half-minute entries. -/
def exHalfLine : LineItem :=
  { projectId := "p1", description := "Work on Unassigned", hours := 1 / 50,
    rate := 0, amount := 0 }

/-- Concrete client Acme with default rate 100. -/
def exAcme : Client :=
  { id := "c1", name := "Acme", email := none, rate := some 100, color := none,
    active := true }

/-- Concrete project Site without override rate. -/
def exSite : Project :=
  { id := "p1", clientId := "c1", name := "Site", rate := none, color := none,
    archived := false }

/-- One billable hour for Acme/Site. -/
def exHourEntry : TimeEntry :=
  { id := "e1", clientId := "c1", projectId := "p1", start := 0,
    endTime := some 3600000, durationMs := 3600000, notes := none, tags := [],
    billable := true }

/-- Concrete line of the Acme scenario invoice. -/
def exAcmeLine : LineItem :=
  { projectId := "p1", description := "Work on Site", hours := 1, rate := 100,
    amount := 100 }

instance (s : List Char) : Decidable (clean s) := by
  unfold clean
  infer_instance

/-- Concrete entry whose notes mix a quote, a comma and a newline. -/
def exCsvEntry : TimeEntry :=
  { id := "e1", clientId := "c1", projectId := "p1", start := 0,
    endTime := some 3600000, durationMs := 3600000,
    notes := some "he\"l,lo\nx", tags := [], billable := true }

/-- Concrete entry whose id itself contains a comma. -/
def exBadIdEntry : TimeEntry :=
  { id := ",", clientId := "c1", projectId := "p1", start := 0, endTime := none,
    durationMs := 0, notes := none, tags := [], billable := false }

/-! ### Theorems -/

/-! ### C1: double start -/

/-- C1: for every state with an active timer, the start-timer handler is
a no-op — the state is unchanged and in particular the running timer's
start instant is preserved, never overwritten by the new selection. -/
theorem c1_double_start_noop (s : AppState) (sel t : Timer)
    (h : s.runningTimer = some t) :
    startTimer s sel = s ∧
      (startTimer s sel).runningTimer.map Timer.start = some t.start := by
  have hs : s.runningTimer.isSome = true := by rw [h]; rfl
  refine ⟨?_, ?_⟩ <;> simp [startTimer, hs, h]

/-- Witness for C1 at a concrete active state and second selection. -/
theorem c1_witness :
    startTimer exRunningState
        { clientId := some "c2", projectId := none, notes := none,
          billable := false, start := 99 } = exRunningState ∧
      (startTimer exRunningState
          { clientId := some "c2", projectId := none, notes := none,
            billable := false, start := 99 }).runningTimer.map Timer.start =
        some exTimer.start :=
  c1_double_start_noop exRunningState _ exTimer rfl

/-! ### C2: stop timer -/

/-- C2: stopping with no active timer leaves the state unchanged;
stopping an active timer clears it and prepends exactly one new entry
whose duration is `max 0 (end - start)`, whose start is the timer's
start, and whose client/project fall back to the sentinel unassigned
identifiers; no other part of the state changes. -/
theorem c2_stop_timer (fresh : String) (s : AppState) (endMs : Int) :
    (s.runningTimer = none → reducer fresh s (.stopTimer endMs) = s) ∧
    ∀ t, s.runningTimer = some t →
      reducer fresh s (.stopTimer endMs) =
        { s with
          runningTimer := none
          entries :=
            { id := fresh
              clientId := jsOrStr t.clientId "unassigned_client"
              projectId := jsOrStr t.projectId "unassigned_project"
              start := t.start
              endTime := some endMs
              durationMs := max 0 (endMs - t.start)
              notes := t.notes
              tags := []
              billable := t.billable } :: s.entries } := by
  constructor
  · intro h; simp [reducer, h]
  · intro t h; simp [reducer, h]

/-- Witness for C2 at a concrete active state. -/
theorem c2_witness :
    reducer "fresh1" exRunningState (.stopTimer 100) =
      { exRunningState with
        runningTimer := none
        entries :=
          { id := "fresh1"
            clientId := jsOrStr exTimer.clientId "unassigned_client"
            projectId := jsOrStr exTimer.projectId "unassigned_project"
            start := exTimer.start
            endTime := some 100
            durationMs := max 0 (100 - exTimer.start)
            notes := exTimer.notes
            tags := []
            billable := exTimer.billable } :: exRunningState.entries } :=
  (c2_stop_timer "fresh1" exRunningState 100).2 exTimer rfl

/-! ### C3: load state (corrected) -/

/-- C3 counterexample: a persisted snapshot carrying a running timer is
loaded with that timer still set — the active timer is not cleared on
load, because the parsed object is spread after the null default. -/
theorem c3_counterexample :
    (loadState (.parsed
        { clients := [], projects := [], entries := [], invoices := [],
          runningTimer := some (some exTimer) })).runningTimer ≠ none := by
  decide

/-- C3 amended: loading a snapshot produced by `persistState` restores
the full state, including a persisted running timer (the null default is
overridden whenever the `runningTimer` key is present); absent or
malformed persisted input falls back to the empty initial state. -/
theorem c3_load_state :
    (∀ s : AppState, loadState (.parsed (persistState s)) = s) ∧
    loadState .absent = emptyState ∧ loadState .malformed = emptyState :=
  ⟨fun _ => rfl, rfl, rfl⟩

/-! ### C5: delete-client cascade -/

/-- C5: deleting client `cid` keeps exactly the clients with a different
id, the projects with a different owning client and the entries with a
different client; invoices and the running timer are untouched. -/
theorem c5_delete_client (fresh : String) (s : AppState) (cid : String) :
    (∀ c : Client,
      c ∈ (reducer fresh s (.deleteClient cid)).clients ↔ c ∈ s.clients ∧ c.id ≠ cid) ∧
    (∀ p : Project,
      p ∈ (reducer fresh s (.deleteClient cid)).projects ↔
        p ∈ s.projects ∧ p.clientId ≠ cid) ∧
    (∀ e : TimeEntry,
      e ∈ (reducer fresh s (.deleteClient cid)).entries ↔
        e ∈ s.entries ∧ e.clientId ≠ cid) ∧
    (reducer fresh s (.deleteClient cid)).invoices = s.invoices ∧
    (reducer fresh s (.deleteClient cid)).runningTimer = s.runningTimer := by
  refine ⟨?_, ?_, ?_, rfl, rfl⟩ <;> intro x <;>
    simp [reducer, List.mem_filter]

/-! ### C10: entry edit re-derives duration (corrected) -/

/-- C10 counterexample: editing an entry to start before the epoch and
end exactly at instant 0 stores duration 0, not
`max 0 (end - start) = 5` — the `endMs || startMs` fallback treats the
end instant 0 as absent. -/
theorem c10_counterexample :
    ¬ ((entrySaveEdit exEditEntry "" "" (some (-5)) (some 0) "" true).durationMs =
        max 0 ((entrySaveEdit exEditEntry "" "" (some (-5)) (some 0) "" true).endTime.getD 0 -
          (entrySaveEdit exEditEntry "" "" (some (-5)) (some 0) "" true).start)) := by
  decide

/-- C10 amended: the saved edit always stores a non-negative duration;
the entry stored by the update action is exactly the re-built one; and
whenever the new end instant is non-zero the stored duration is
re-derived as `max 0 (end - start)` from the new bounds. -/
theorem c10_edit_duration (s : AppState) (entry : TimeEntry) (cI pI : String)
    (sI eI : Option Int) (n : String) (b : Bool) :
    0 ≤ (entrySaveEdit entry cI pI sI eI n b).durationMs ∧
    (∀ e2 ∈ (reducer "" s (.updateEntry (entrySaveEdit entry cI pI sI eI n b))).entries,
        e2.id = entry.id → e2 = entrySaveEdit entry cI pI sI eI n b) ∧
    (∀ v, (entrySaveEdit entry cI pI sI eI n b).endTime = some v → v ≠ 0 →
        (entrySaveEdit entry cI pI sI eI n b).durationMs =
          max 0 (v - (entrySaveEdit entry cI pI sI eI n b).start)) := by
  refine ⟨le_max_left _ _, ?_, ?_⟩
  · intro e2 h2 hid
    simp only [reducer, List.mem_map] at h2
    obtain ⟨e1, _, he⟩ := h2
    by_cases hc : e1.id = (entrySaveEdit entry cI pI sI eI n b).id
    · simpa [hc] using he.symm
    · exfalso
      rw [if_neg hc] at he
      exact hc (he ▸ hid)
  · intro v hv hne
    have : v = (if (entrySaveEdit entry cI pI sI eI n b).endTime.getD 0 = 0 then 0 else
        (entrySaveEdit entry cI pI sI eI n b).endTime.getD 0) := by
      simp [entrySaveEdit] at hv ⊢
      omega
    simp [entrySaveEdit] at hv ⊢
    omega

/-! ### C7: date-range filter -/

/-- Unfolded reading of the lower bound: `none` behaves as negative
infinity. -/
theorem fromOk_iff (b : Option Int) (e : TimeEntry) :
    fromOk b e ↔ ∀ d, b = some d → d ≤ e.start := by
  cases b <;> simp [fromOk]

/-- Unfolded reading of the upper bound: `none` behaves as positive
infinity, and a given day is inclusive through its last millisecond. -/
theorem toOk_iff (b : Option Int) (e : TimeEntry) :
    toOk b e ↔ ∀ d, b = some d → e.endTime.getD e.start ≤ d + 24 * 3600 * 1000 - 1 := by
  cases b <;> simp [toOk]

/-- C7: an entry passes the report filter iff its start is at or after
the lower bound and its `end ?? start` is at or before the upper day
bound plus `24*3600*1000 - 1`; the invoice filter adds exactly the
client and billable tests; and both boundary instants (start exactly at
the lower bound, end exactly at the last millisecond of the upper day)
are included. -/
theorem c7_range_filter (entries : List TimeEntry) (fromB toB : Option Int)
    (e : TimeEntry) :
    (e ∈ filteredEntries entries fromB toB ↔
      e ∈ entries ∧ (∀ d, fromB = some d → d ≤ e.start) ∧
        ∀ d, toB = some d → e.endTime.getD e.start ≤ d + 24 * 3600 * 1000 - 1) ∧
    (∀ c, e ∈ invoiceEntries entries (some c) fromB toB ↔
      c ≠ "" ∧ e ∈ entries ∧ e.clientId = c ∧ e.billable = true ∧
        (∀ d, fromB = some d → d ≤ e.start) ∧
        ∀ d, toB = some d → e.endTime.getD e.start ≤ d + 24 * 3600 * 1000 - 1) ∧
    (∀ d, fromB = some d → e.start = d → toOk toB e → e ∈ entries →
      e ∈ filteredEntries entries fromB toB) ∧
    (∀ d, toB = some d → e.endTime.getD e.start = d + 24 * 3600 * 1000 - 1 →
      fromOk fromB e → e ∈ entries → e ∈ filteredEntries entries fromB toB) := by
  have hmain : e ∈ filteredEntries entries fromB toB ↔
      e ∈ entries ∧ (∀ d, fromB = some d → d ≤ e.start) ∧
        ∀ d, toB = some d → e.endTime.getD e.start ≤ d + 24 * 3600 * 1000 - 1 := by
    simp [filteredEntries, List.mem_filter, fromOk_iff, toOk_iff]
  refine ⟨hmain, ?_, ?_, ?_⟩
  · intro c
    by_cases hc : c = ""
    · subst hc
      simp [invoiceEntries, truthyId]
    · simp [invoiceEntries, truthyId, hc, List.mem_filter, fromOk_iff, toOk_iff, and_assoc]
  · intro d hf hst hto hmem
    exact hmain.mpr ⟨hmem, by intro d1 h1; rw [hf] at h1; cases h1; omega,
      (toOk_iff toB e).mp hto⟩
  · intro d ht heq hfrom hmem
    exact hmain.mpr ⟨hmem, (fromOk_iff fromB e).mp hfrom,
      by intro d1 h1; rw [ht] at h1; cases h1; omega⟩

/-- Witness for C7: both boundary instants are included at concrete
bounds. -/
theorem c7_witness :
    exRangeEntry ∈ filteredEntries [exRangeEntry] (some 86400000) (some 86400000) :=
  (c7_range_filter [exRangeEntry] (some 86400000) (some 86400000) exRangeEntry).2.2.1
    86400000 rfl rfl (by decide) (by decide)

/-! ### C8: effective rate -/

/-- Lookup misses when no element carries the key. -/
theorem mapGet_eq_none (key : α → String) (l : List α) (k : String)
    (h : ∀ x ∈ l, key x ≠ k) : mapGet key l k = none := by
  simp only [mapGet, List.find?_eq_none, List.mem_reverse]
  intro x hx
  simpa using h x hx

/-- Client halves of `rateFor` and of the spec's `effectiveRate` agree
whenever no client has the empty identifier (the only divergence
candidates, a defined rate of 0 and an empty-string id, both resolve to
0 on each side). -/
theorem rateForClient_eq_spec (clients : List Client) (cid : Option String)
    (hc : ∀ c ∈ clients, c.id ≠ "") :
    rateForClient clients cid = effectiveRateSpecClient clients cid := by
  match cid with
  | none => rfl
  | some c =>
    by_cases h0 : c = ""
    · subst h0
      have hn : mapGet Client.id clients "" = none := mapGet_eq_none _ _ _ hc
      simp [rateForClient, truthyId, effectiveRateSpecClient, hn]
    · have ht : truthyId (some c) = some c := by simp [truthyId, h0]
      simp only [rateForClient, effectiveRateSpecClient, ht, Option.some_bind]
      cases hfind : mapGet Client.id clients c with
      | none => rfl
      | some cl =>
        cases hr : cl.rate with
        | none => simp [hr]
        | some r =>
          by_cases hz : r = 0 <;> simp [hr, hz]

/-- C8: the source's `rateFor` computes exactly the spec's
`effectiveRate` (project override first when defined and non-zero, else
client default, else 0) whenever no stored identifier is the empty
string; in particular client rate 50 with project rate 75 resolves to
75, and with the project rate absent resolves to 50. -/
theorem c8_effective_rate :
    (∀ (projects : List Project) (clients : List Client) (pid cid : Option String),
      (∀ p ∈ projects, p.id ≠ "") → (∀ c ∈ clients, c.id ≠ "") →
      rateFor projects clients pid cid = effectiveRateSpec projects clients pid cid) ∧
    rateFor exProjects exClients (some "p1") (some "c1") = 75 ∧
    rateFor [exProjNoRate] exClients (some "p1") (some "c1") = 50 := by
  refine ⟨?_, by decide, by decide⟩
  intro projects clients pid cid hp hc
  match pid with
  | none => exact rateForClient_eq_spec clients cid hc
  | some p =>
    by_cases h0 : p = ""
    · subst h0
      have hn : mapGet Project.id projects "" = none := mapGet_eq_none _ _ _ hp
      simp [rateFor, truthyId, effectiveRateSpec, hn]
      exact rateForClient_eq_spec clients cid hc
    · have ht : truthyId (some p) = some p := by simp [truthyId, h0]
      simp only [rateFor, effectiveRateSpec, ht, Option.some_bind]
      cases hfind : mapGet Project.id projects p with
      | none => exact rateForClient_eq_spec clients cid hc
      | some proj =>
        dsimp only
        cases hr : proj.rate with
        | none => exact rateForClient_eq_spec clients cid hc
        | some r =>
          dsimp only
          by_cases hz : r = 0
          · rw [if_pos hz, if_pos hz]
            exact rateForClient_eq_spec clients cid hc
          · rw [if_neg hz, if_neg hz]

/-- Witness for C8 with the empty-identifier hypotheses discharged at
the concrete client and project. -/
theorem c8_witness :
    rateFor exProjects exClients (some "p1") none =
      effectiveRateSpec exProjects exClients (some "p1") none :=
  c8_effective_rate.1 exProjects exClients (some "p1") none (by decide) (by decide)

/-- Rounded values are exact hundredths. -/
theorem isCent_round2 (q : ℚ) : isCent (round2 q) := ⟨⌊q * 100 + 1 / 2⌋, rfl⟩

/-- Rounding to two decimals fixes exact hundredths. -/
theorem round2_eq_self {q : ℚ} (h : isCent q) : round2 q = q := by
  obtain ⟨n, rfl⟩ := h
  unfold round2
  have h1 : (n : ℚ) / 100 * 100 + 1 / 2 = (n : ℚ) + 1 / 2 := by
    field_simp
  have h2 : ⌊(n : ℚ) + 1 / 2⌋ = n := by
    rw [Int.floor_int_add]
    norm_num
  rw [h1, h2]

/-- Two-decimal rounding is idempotent. -/
theorem round2_round2 (q : ℚ) : round2 (round2 q) = round2 q :=
  round2_eq_self (isCent_round2 q)

theorem isCent_zero : isCent 0 := ⟨0, by norm_num⟩

theorem isCent_add {a b : ℚ} (ha : isCent a) (hb : isCent b) : isCent (a + b) := by
  obtain ⟨n, rfl⟩ := ha
  obtain ⟨m, rfl⟩ := hb
  exact ⟨n + m, by push_cast; ring⟩

theorem isCent_sum {l : List ℚ} (h : ∀ q ∈ l, isCent q) : isCent l.sum := by
  induction l with
  | nil => simpa using isCent_zero
  | cons a t ih =>
      rw [List.sum_cons]
      exact isCent_add (h a (by simp)) (ih fun q hq => h q (by simp [hq]))

theorem accGet_cons (k1 : String) (v1 : LineAcc) (tl : List (String × LineAcc))
    (k : String) : accGet ((k1, v1) :: tl) k = if k1 = k then some v1 else accGet tl k := by
  by_cases h : k1 = k <;> simp [accGet, List.find?, h]

theorem accSet_cons (k1 : String) (v1 : LineAcc) (tl : List (String × LineAcc))
    (k : String) (v : LineAcc) :
    accSet ((k1, v1) :: tl) k v =
      if k1 = k then (k, v) :: tl else (k1, v1) :: accSet tl k v := rfl

theorem accGet_accSet_self (m : List (String × LineAcc)) (k : String) (v : LineAcc) :
    accGet (accSet m k v) k = some v := by
  induction m with
  | nil => simp [accSet, accGet, List.find?]
  | cons hd tl ih =>
      obtain ⟨k1, v1⟩ := hd
      rw [accSet_cons]
      by_cases h : k1 = k
      · rw [if_pos h, accGet_cons, if_pos rfl]
      · rw [if_neg h, accGet_cons, if_neg h, ih]

theorem accGet_accSet_ne (m : List (String × LineAcc)) (k k2 : String) (v : LineAcc)
    (h : k2 ≠ k) : accGet (accSet m k v) k2 = accGet m k2 := by
  have hk : ¬ k = k2 := fun hh => h hh.symm
  induction m with
  | nil => simp [accSet, accGet, List.find?, hk]
  | cons hd tl ih =>
      obtain ⟨k1, v1⟩ := hd
      rw [accSet_cons]
      by_cases h1 : k1 = k
      · subst h1
        rw [if_pos rfl, accGet_cons, if_neg hk, accGet_cons, if_neg hk]
      · rw [if_neg h1, accGet_cons, accGet_cons]
        by_cases h2 : k1 = k2
        · rw [if_pos h2, if_pos h2]
        · rw [if_neg h2, if_neg h2, ih]

theorem mem_accKeys_accSet (m : List (String × LineAcc)) (k : String) (v : LineAcc)
    (x : String) (h : x ∈ (accSet m k v).map Prod.fst) :
    x ∈ m.map Prod.fst ∨ x = k := by
  induction m with
  | nil =>
      right
      simpa [accSet] using h
  | cons hd tl ih =>
      obtain ⟨k1, v1⟩ := hd
      rw [accSet_cons] at h
      by_cases h1 : k1 = k
      · rw [if_pos h1] at h
        rw [List.map_cons, List.mem_cons] at h
        rcases h with h | h
        · right; exact h
        · left; rw [List.map_cons, List.mem_cons]; right; exact h
      · rw [if_neg h1] at h
        rw [List.map_cons, List.mem_cons] at h
        rcases h with h | h
        · left; rw [List.map_cons, List.mem_cons]; left; exact h
        · rcases ih h with h2 | h2
          · left; rw [List.map_cons, List.mem_cons]; right; exact h2
          · right; exact h2

theorem nodup_accSet (m : List (String × LineAcc)) (k : String) (v : LineAcc)
    (h : (m.map Prod.fst).Nodup) : ((accSet m k v).map Prod.fst).Nodup := by
  induction m with
  | nil => simp [accSet]
  | cons hd tl ih =>
      obtain ⟨k1, v1⟩ := hd
      rw [List.map_cons, List.nodup_cons] at h
      rw [accSet_cons]
      by_cases h1 : k1 = k
      · subst h1
        rw [if_pos rfl, List.map_cons, List.nodup_cons]
        exact h
      · rw [if_neg h1, List.map_cons, List.nodup_cons]
        refine ⟨fun hmem => ?_, ih h.2⟩
        rcases mem_accKeys_accSet tl k v k1 hmem with h2 | h2
        · exact h.1 h2
        · exact h1 h2

theorem accHours_accSet_self (m : List (String × LineAcc)) (k : String) (v : LineAcc) :
    accHours (accSet m k v) k = v.hours := by
  simp [accHours, accGet_accSet_self]

theorem accHours_accSet_ne (m : List (String × LineAcc)) (k k2 : String) (v : LineAcc)
    (h : k2 ≠ k) : accHours (accSet m k v) k2 = accHours m k2 := by
  simp [accHours, accGet_accSet_ne m k k2 v h]

theorem sumHours_cons (e : TimeEntry) (rest : List TimeEntry) (k : String) :
    sumHours (e :: rest) k =
      (if e.projectId = k then hoursFromMs e.durationMs else 0) + sumHours rest k := by
  by_cases h : e.projectId = k <;> simp [sumHours, List.filter_cons, h]

theorem accGet_of_mem_nodup (m : List (String × LineAcc)) (p : String × LineAcc)
    (h : (m.map Prod.fst).Nodup) (hp : p ∈ m) : accGet m p.1 = some p.2 := by
  induction m with
  | nil => cases hp
  | cons hd tl ih =>
      obtain ⟨k1, v1⟩ := hd
      rw [List.map_cons, List.nodup_cons] at h
      rw [accGet_cons]
      rcases List.mem_cons.mp hp with hp1 | hp1
      · subst hp1
        simp
      · have hne : k1 ≠ p.1 := by
          intro he
          apply h.1
          show k1 ∈ List.map Prod.fst tl
          rw [he]
          exact List.mem_map_of_mem Prod.fst hp1
        rw [if_neg hne]
        exact ih h.2 hp1

theorem fold_nodup (ps : List Project) (cs : List Client) (es : List TimeEntry)
    (m : List (String × LineAcc)) (h : (m.map Prod.fst).Nodup) :
    ((invoiceLinesFold ps cs es m).map Prod.fst).Nodup := by
  induction es generalizing m with
  | nil => exact h
  | cons e rest ih => exact ih _ (nodup_accSet _ _ _ h)

/-- The accumulated hours for key `k` after the grouping fold are the
starting hours plus the sum of the per-entry rounded hours of the
entries with project `k`. -/
theorem fold_accHours (ps : List Project) (cs : List Client) (es : List TimeEntry)
    (m : List (String × LineAcc)) (k : String) :
    accHours (invoiceLinesFold ps cs es m) k = accHours m k + sumHours es k := by
  induction es generalizing m with
  | nil => simp [invoiceLinesFold, sumHours]
  | cons e rest ih =>
      simp only [invoiceLinesFold]
      rw [ih]
      by_cases hk : k = e.projectId
      · subst hk
        rw [accHours_accSet_self, sumHours_cons, if_pos rfl]
        have h2 : ((accGet m e.projectId).getD
            { hours := 0, rate := rateFor ps cs (some e.projectId) (some e.clientId),
              name := projName ps e.projectId }).hours = accHours m e.projectId := by
          cases hg : accGet m e.projectId <;> simp [accHours, hg]
        dsimp only
        rw [h2]
        ring
      · rw [accHours_accSet_ne _ _ _ _ hk, sumHours_cons,
          if_neg fun hh => hk hh.symm]
        ring

/-- Each grouping-map member of the fold from the empty map holds
exactly the summed per-entry rounded hours of its project. -/
theorem fold_hours_char (ps : List Project) (cs : List Client) (es : List TimeEntry)
    (p : String × LineAcc) (hp : p ∈ invoiceLinesFold ps cs es []) :
    p.2.hours = sumHours es p.1 := by
  have h1 := fold_nodup ps cs es [] (by simp)
  have h2 := accGet_of_mem_nodup _ p h1 hp
  have h3 := fold_accHours ps cs es [] p.1
  unfold accHours at h3
  rw [h2] at h3
  simpa [accGet] using h3

/-- The summed per-entry rounded hours are an exact hundredth. -/
theorem isCent_sumHours (es : List TimeEntry) (k : String) : isCent (sumHours es k) := by
  refine isCent_sum ?_
  intro q hq
  simp only [List.mem_map] at hq
  obtain ⟨e, _, rfl⟩ := hq
  exact isCent_round2 _

theorem foldl_amount (lines : List LineItem) (a : ℚ) :
    lines.foldl (fun sum l => sum + l.amount) a = a + (lines.map LineItem.amount).sum := by
  induction lines generalizing a with
  | nil => simp
  | cons l tl ih =>
      rw [List.foldl_cons, ih, List.map_cons, List.sum_cons]
      ring

/-- Witness for C10 at a concrete edit that keeps the stored bounds. -/
theorem c10_witness :
    (entrySaveEdit exEditEntry "" "" none none "" true).durationMs =
      max 0 (200 - (entrySaveEdit exEditEntry "" "" none none "" true).start) :=
  (c10_edit_duration emptyState exEditEntry "" "" none none "" true).2.2 200 rfl
    (by decide)

/-! ### C6: per-line hours (corrected) -/

/-- C6 counterexample: for two entries of 18000 ms each on one project,
the produced line has hours 0.02 (per-entry rounding to 0.01 summed),
while rounding the group millisecond sum once would give 0.01. -/
theorem c6_counterexample :
    ¬ ∀ l ∈ invoiceLinesOf [] [] [exE1, exE2],
        l.hours = round2 (((([exE1, exE2].filter fun e => e.projectId = l.projectId).map
          fun e => (e.durationMs : ℚ)).sum) / 3600000) := by
  decide

/-- C6 amended: each line's hours are `round2` of the sum of the
per-entry rounded hours `hoursFromMs e.durationMs` over the line's
project — the division is rounded per entry at accumulation and once
more for the accumulated group, not once only. -/
theorem c6_group_hours (ps : List Project) (cs : List Client) (ges : List TimeEntry) :
    ∀ l ∈ invoiceLinesOf ps cs ges,
      l.hours = round2 (((ges.filter fun e => e.projectId = l.projectId).map
        fun e => hoursFromMs e.durationMs).sum) := by
  intro l hl
  simp only [invoiceLinesOf, List.mem_map] at hl
  obtain ⟨p, hp, rfl⟩ := hl
  dsimp only
  rw [fold_hours_char ps cs ges p hp]
  rfl

/-- Witness for C6 at the two concrete half-minute entries. -/
theorem c6_witness :
    exHalfLine.hours =
      round2 ((([exE1, exE2].filter fun e => e.projectId = exHalfLine.projectId).map
        fun e => hoursFromMs e.durationMs).sum) :=
  c6_group_hours [] [] [exE1, exE2] exHalfLine (by decide)

/-! ### C4: invoice totals -/

/-- C4: every generated invoice stores internally consistent, 2-decimal
currency values: each line amount is `round2(hours * rate)`, the
subtotal is the exact sum of the line amounts, the tax is
`round2(subtotal * taxRate/100)` and the total is
`round2(subtotal + tax)`. -/
theorem c4_invoice_totals (ps : List Project) (cs : List Client)
    (entries : List TimeEntry) (ic : Option String) (f t : Option Int) (taxRate : ℚ)
    (i n d : String) (dd : Option String) :
    (∀ l ∈ (createInvoice ps cs entries ic f t taxRate i n d dd).lineItems,
        l.amount = round2 (l.hours * l.rate)) ∧
    (createInvoice ps cs entries ic f t taxRate i n d dd).subtotal =
      ((createInvoice ps cs entries ic f t taxRate i n d dd).lineItems.map
        LineItem.amount).sum ∧
    (createInvoice ps cs entries ic f t taxRate i n d dd).tax =
      round2 ((createInvoice ps cs entries ic f t taxRate i n d dd).subtotal *
        (taxRate / 100)) ∧
    (createInvoice ps cs entries ic f t taxRate i n d dd).total =
      round2 ((createInvoice ps cs entries ic f t taxRate i n d dd).subtotal +
        (createInvoice ps cs entries ic f t taxRate i n d dd).tax) := by
  have hlines : (createInvoice ps cs entries ic f t taxRate i n d dd).lineItems =
      invoiceLinesOf ps cs (invoiceEntries entries ic f t) := rfl
  have hamount : ∀ l ∈ invoiceLinesOf ps cs (invoiceEntries entries ic f t),
      l.amount = round2 (l.hours * l.rate) := by
    intro l hl
    simp only [invoiceLinesOf, List.mem_map] at hl
    obtain ⟨p, hp, rfl⟩ := hl
    dsimp only
    have hc : isCent p.2.hours := by
      rw [fold_hours_char ps cs (invoiceEntries entries ic f t) p hp]
      exact isCent_sumHours _ _
    rw [round2_eq_self hc]
  have hcentam : ∀ q ∈ (invoiceLinesOf ps cs (invoiceEntries entries ic f t)).map
      LineItem.amount, isCent q := by
    intro q hq
    simp only [List.mem_map] at hq
    obtain ⟨l, hl, rfl⟩ := hq
    simp only [invoiceLinesOf, List.mem_map] at hl
    obtain ⟨p, hp, rfl⟩ := hl
    exact isCent_round2 _
  have hsub : invoiceSubtotalOf (invoiceLinesOf ps cs (invoiceEntries entries ic f t)) =
      ((invoiceLinesOf ps cs (invoiceEntries entries ic f t)).map LineItem.amount).sum := by
    simpa using foldl_amount (invoiceLinesOf ps cs (invoiceEntries entries ic f t)) 0
  have hsubcent : isCent
      (invoiceSubtotalOf (invoiceLinesOf ps cs (invoiceEntries entries ic f t))) := by
    rw [hsub]
    exact isCent_sum hcentam
  have hsubfield : (createInvoice ps cs entries ic f t taxRate i n d dd).subtotal =
      invoiceSubtotalOf (invoiceLinesOf ps cs (invoiceEntries entries ic f t)) := by
    show round2 (invoiceSubtotalOf (invoiceLinesOf ps cs (invoiceEntries entries ic f t))) = _
    exact round2_eq_self hsubcent
  have htaxfield : (createInvoice ps cs entries ic f t taxRate i n d dd).tax =
      invoiceTaxOf (invoiceSubtotalOf (invoiceLinesOf ps cs
        (invoiceEntries entries ic f t))) taxRate := by
    show round2 _ = _
    exact round2_eq_self (isCent_round2 _)
  refine ⟨by rw [hlines]; exact hamount, ?_, ?_, ?_⟩
  · rw [hlines, hsubfield, hsub]
  · rw [htaxfield, hsubfield]
    rfl
  · have htotfield : (createInvoice ps cs entries ic f t taxRate i n d dd).total =
        invoiceTotalOf (invoiceSubtotalOf (invoiceLinesOf ps cs
          (invoiceEntries entries ic f t)))
          (invoiceTaxOf (invoiceSubtotalOf (invoiceLinesOf ps cs
            (invoiceEntries entries ic f t))) taxRate) := by
      show round2 _ = _
      exact round2_eq_self (isCent_round2 _)
    rw [htotfield, hsubfield, htaxfield]
    rfl

/-- Witness for C4: the single line of the Acme scenario invoice
satisfies the amount identity. -/
theorem c4_witness :
    exAcmeLine.amount = round2 (exAcmeLine.hours * exAcmeLine.rate) :=
  (c4_invoice_totals [exSite] [exAcme] [exHourEntry] (some "c1") none none 10
    "inv1" "INV-2025-0001" "2025-10-11" none).1 exAcmeLine (by decide)

/-! ### C9: delimited-text export (corrected) -/

theorem clean_nil : clean [] := by
  intro c hc
  cases hc

theorem clean_cons {c : Char} {s : List Char} (hc : cleanChar c) (hs : clean s) :
    clean (c :: s) := by
  intro x hx
  rcases List.mem_cons.mp hx with h | h
  · rwa [h]
  · exact hs x h

theorem clean_append {a b : List Char} (ha : clean a) (hb : clean b) :
    clean (a ++ b) := by
  intro x hx
  rcases List.mem_append.mp hx with h | h
  · exact ha x h
  · exact hb x h

theorem clean_replicate (n : Nat) {c : Char} (hc : cleanChar c) :
    clean (List.replicate n c) := by
  intro x hx
  rw [List.eq_of_mem_replicate hx]
  exact hc

theorem cleanChar_digitChar (d : Nat) : cleanChar (digitChar d) := by
  unfold digitChar
  repeat' split
  all_goals decide

theorem clean_natCharsAux (fuel n : Nat) : clean (natCharsAux fuel n) := by
  induction fuel generalizing n with
  | zero => exact clean_nil
  | succ fuel ih =>
      unfold natCharsAux
      split
      · exact clean_cons (cleanChar_digitChar n) clean_nil
      · exact clean_append (ih (n / 10))
          (clean_cons (cleanChar_digitChar (n % 10)) clean_nil)

theorem clean_natChars (n : Nat) : clean (natChars n) := clean_natCharsAux (n + 1) n

theorem clean_padNum (k n : Nat) : clean (padNum k n) :=
  clean_append (clean_replicate _ (by decide)) (clean_natChars n)

theorem clean_append_iff {a b : List Char} : clean (a ++ b) ↔ clean a ∧ clean b := by
  unfold clean
  exact List.forall_mem_append

theorem clean_yearChars (y : Int) : clean (yearChars y) := by
  unfold yearChars
  repeat' split
  · exact clean_cons (by decide) (clean_padNum 6 _)
  · exact clean_cons (by decide) (clean_padNum 6 _)
  · exact clean_padNum 4 _

theorem clean_isoYMD (day : Int) : clean (isoYMD day) := by
  unfold isoYMD
  repeat'
    first
      | exact clean_yearChars _
      | exact clean_padNum _ _
      | exact clean_nil
      | decide
      | apply clean_append
      | apply clean_cons

theorem clean_isoHMS (msod : Nat) : clean (isoHMS msod) := by
  unfold isoHMS
  repeat'
    first
      | exact clean_padNum _ _
      | exact clean_nil
      | decide
      | apply clean_append
      | apply clean_cons

theorem clean_isoString (ms : Int) : clean (isoString ms) :=
  clean_append (clean_isoYMD _) (clean_isoHMS _)

theorem clean_fracChars (fuel r d : Nat) : clean (fracChars fuel r d) := by
  induction fuel generalizing r with
  | zero => exact clean_nil
  | succ fuel ih =>
      unfold fracChars
      split
      · exact clean_nil
      · exact clean_cons (cleanChar_digitChar _) (ih _)

theorem clean_renderRat (q : ℚ) : clean (renderRat q) := by
  unfold renderRat
  refine clean_append (clean_append ?_ (clean_natChars _)) ?_
  · split
    · exact clean_cons (by decide) clean_nil
    · exact clean_nil
  · split
    · exact clean_nil
    · exact clean_cons (by decide) (clean_fracChars _ _ _)

theorem clean_endField (e : TimeEntry) : clean (endField e) := by
  unfold endField
  split
  · split
    · exact clean_nil
    · exact clean_isoString _
  · exact clean_nil

theorem clean_billableField (b : Bool) :
    clean ((if b then "Yes" else "No") : String).data := by
  cases b <;> decide

theorem needsWrap_eq_false {s : List Char} (h : clean s) : needsWrap s = false := by
  unfold needsWrap
  rw [List.any_eq_false]
  intro c hc
  have h2 := h c hc
  simp only [cleanChar] at h2
  simp [h2.1, h2.2.1, h2.2.2]

theorem clean_of_needsWrap_false {s : List Char} (h : needsWrap s = false) : clean s := by
  intro c hc
  unfold needsWrap at h
  rw [List.any_eq_false] at h
  have h2 := h c hc
  simp at h2
  refine ⟨?_, ?_, ?_⟩ <;> tauto

theorem wrap_eq_self {s : List Char} (h : clean s) : wrap s = s := by
  unfold wrap
  rw [needsWrap_eq_false h]
  simp

/-- Stepping the parser over clean raw characters appends them to the
current field. -/
theorem foldl_raw (s : List Char) (hs : clean s) :
    ∀ (f : List Char) (row : List (List Char)) (acc : List (List (List Char))),
    List.foldl csvStep ⟨false, false, f, row, acc⟩ s = ⟨false, false, f ++ s, row, acc⟩ := by
  induction s with
  | nil => intro f row acc; simp
  | cons c cs ih =>
      intro f row acc
      have hc : cleanChar c := hs c (by simp)
      have hcs : clean cs := fun x hx => hs x (by simp [hx])
      rw [List.foldl_cons]
      rw [show csvStep ⟨false, false, f, row, acc⟩ c = ⟨false, false, f ++ [c], row, acc⟩
        from by simp [csvStep, hc.1, hc.2.1, hc.2.2]]
      rw [ih hcs (f ++ [c]) row acc]
      simp

/-- Stepping the parser over an escaped field body, inside quotes,
appends the unescaped characters. -/
theorem foldl_escQ (s : List Char) :
    ∀ (f : List Char) (row : List (List Char)) (acc : List (List (List Char))),
    List.foldl csvStep ⟨true, false, f, row, acc⟩ (escQ s) =
      ⟨true, false, f ++ s, row, acc⟩ := by
  induction s with
  | nil => intro f row acc; simp [escQ]
  | cons c cs ih =>
      intro f row acc
      by_cases hq : c = '"'
      · subst hq
        rw [show escQ ('"' :: cs) = '"' :: '"' :: escQ cs from by simp [escQ]]
        rw [List.foldl_cons, List.foldl_cons]
        rw [show csvStep ⟨true, false, f, row, acc⟩ '"' = ⟨false, true, f, row, acc⟩ from rfl]
        rw [show csvStep ⟨false, true, f, row, acc⟩ '"' =
          ⟨true, false, f ++ ['"'], row, acc⟩ from rfl]
        rw [ih (f ++ ['"']) row acc]
        simp
      · rw [show escQ (c :: cs) = c :: escQ cs from by simp [escQ, hq]]
        rw [List.foldl_cons]
        rw [show csvStep ⟨true, false, f, row, acc⟩ c = ⟨true, false, f ++ [c], row, acc⟩
          from by simp [csvStep, hq]]
        rw [ih (f ++ [c]) row acc]
        simp

/-- Stepping the parser over a wrapped field from a fresh-field state
recovers exactly the unescaped field. -/
theorem foldl_wrap (s : List Char) (row : List (List Char))
    (acc : List (List (List Char))) :
    ∃ b, List.foldl csvStep ⟨false, false, [], row, acc⟩ (wrap s) =
      ⟨false, b, s, row, acc⟩ := by
  by_cases hw : needsWrap s
  · refine ⟨true, ?_⟩
    rw [show wrap s = '"' :: (escQ s ++ ['"']) from by simp [wrap, hw]]
    rw [List.foldl_cons]
    rw [show csvStep ⟨false, false, [], row, acc⟩ '"' = ⟨true, false, [], row, acc⟩ from rfl]
    rw [List.foldl_append]
    rw [show List.foldl csvStep ⟨true, false, [], row, acc⟩ (escQ s) =
      ⟨true, false, s, row, acc⟩ from by simpa using foldl_escQ s [] row acc]
    rfl
  · have hw2 : needsWrap s = false := by simpa using hw
    refine ⟨false, ?_⟩
    rw [show wrap s = s from by simp [wrap, hw2]]
    have hcl : clean s := clean_of_needsWrap_false hw2
    simpa using foldl_raw s hcl [] row acc

/-- A comma after a finished field (quoted or raw) closes the field. -/
theorem csvStep_comma (b : Bool) (f : List Char) (row : List (List Char))
    (acc : List (List (List Char))) :
    csvStep ⟨false, b, f, row, acc⟩ ',' = ⟨false, false, [], row ++ [f], acc⟩ := by
  cases b <;> rfl

/-- A newline after a finished field closes the field and the row. -/
theorem csvStep_newline (b : Bool) (f : List Char) (row : List (List Char))
    (acc : List (List (List Char))) :
    csvStep ⟨false, b, f, row, acc⟩ '\n' = ⟨false, false, [], [], acc ++ [row ++ [f]]⟩ := by
  cases b <;> rfl

theorem dropLast_append_getLastD (f : α) (fs : List α) (d : α) :
    (f :: fs).dropLast ++ [(f :: fs).getLastD d] = f :: fs := by
  induction fs generalizing f d with
  | nil => rfl
  | cons g gs ih =>
      rw [show (f :: g :: gs).dropLast = f :: (g :: gs).dropLast from rfl]
      rw [show (f :: g :: gs).getLastD d = (g :: gs).getLastD f from rfl]
      rw [List.cons_append]
      rw [ih g f]

/-- Stepping the parser over a rendered row accumulates its fields; the
last field stays pending in the state. -/
theorem foldl_renderRow (fs : List (List Char)) (f : List Char) :
    ∀ (row : List (List Char)) (acc : List (List (List Char))),
    ∃ b, List.foldl csvStep ⟨false, false, [], row, acc⟩ (renderRow (f :: fs)) =
      ⟨false, b, (f :: fs).getLastD [], row ++ (f :: fs).dropLast, acc⟩ := by
  induction fs generalizing f with
  | nil =>
      intro row acc
      obtain ⟨b, hb⟩ := foldl_wrap f row acc
      refine ⟨b, ?_⟩
      rw [show renderRow [f] = wrap f from rfl, hb]
      simp
  | cons g gs ih =>
      intro row acc
      rw [show renderRow (f :: g :: gs) = (wrap f ++ [',']) ++ renderRow (g :: gs) from rfl]
      rw [List.foldl_append, List.foldl_append]
      obtain ⟨b, hb⟩ := foldl_wrap f row acc
      rw [hb]
      rw [show List.foldl csvStep (⟨false, b, f, row, acc⟩ : CsvState) [','] =
        csvStep ⟨false, b, f, row, acc⟩ ',' from rfl]
      rw [csvStep_comma]
      obtain ⟨b2, hb2⟩ := ih g (row ++ [f]) acc
      refine ⟨b2, ?_⟩
      rw [hb2]
      rw [show (f :: g :: gs).getLastD [] = (g :: gs).getLastD f from rfl]
      rw [show (g :: gs).getLastD f = (g :: gs).getLastD [] from by
        cases gs <;> rfl]
      rw [show (f :: g :: gs).dropLast = f :: (g :: gs).dropLast from rfl]
      simp

/-- Stepping the parser over a rendered row plus its newline emits the
row and returns to the fresh-row state. -/
theorem foldl_renderRow_nl (f : List Char) (fs : List (List Char))
    (row : List (List Char)) (acc : List (List (List Char))) :
    List.foldl csvStep ⟨false, false, [], row, acc⟩ (renderRow (f :: fs) ++ ['\n']) =
      ⟨false, false, [], [], acc ++ [row ++ (f :: fs)]⟩ := by
  rw [List.foldl_append]
  obtain ⟨b, hb⟩ := foldl_renderRow fs f row acc
  rw [hb]
  rw [show List.foldl csvStep
      (⟨false, b, (f :: fs).getLastD [], row ++ (f :: fs).dropLast, acc⟩ : CsvState)
      ['\n'] =
    csvStep ⟨false, b, (f :: fs).getLastD [], row ++ (f :: fs).dropLast, acc⟩ '\n'
    from rfl]
  rw [csvStep_newline]
  rw [List.append_assoc, dropLast_append_getLastD]

/-- Parsing the rendering of non-empty rows from any starting
accumulator appends exactly those rows. -/
theorem parse_rows (rows : List (List (List Char))) :
    ∀ (acc : List (List (List Char))), rows ≠ [] → (∀ r ∈ rows, r ≠ []) →
    csvFlush (List.foldl csvStep ⟨false, false, [], [], acc⟩
      (joinSep ['\n'] (rows.map renderRow))) = acc ++ rows := by
  induction rows with
  | nil => intro acc h _; exact absurd rfl h
  | cons r rest ih =>
      intro acc _ hr
      obtain ⟨f, fs, rfl⟩ : ∃ f fs, r = f :: fs := by
        cases r with
        | nil => exact absurd rfl (hr [] (by simp))
        | cons f fs => exact ⟨f, fs, rfl⟩
      cases rest with
      | nil =>
          rw [show joinSep ['\n'] ([f :: fs].map renderRow) = renderRow (f :: fs) from rfl]
          obtain ⟨b, hb⟩ := foldl_renderRow fs f [] acc
          rw [hb]
          unfold csvFlush
          show acc ++ [([] ++ (f :: fs).dropLast) ++ [(f :: fs).getLastD []]] =
            acc ++ [f :: fs]
          rw [List.nil_append, dropLast_append_getLastD]
      | cons r2 rest2 =>
          rw [show joinSep ['\n'] (((f :: fs) :: r2 :: rest2).map renderRow) =
            (renderRow (f :: fs) ++ ['\n']) ++ joinSep ['\n'] ((r2 :: rest2).map renderRow)
            from rfl]
          rw [List.foldl_append, foldl_renderRow_nl]
          simp only [List.nil_append]
          rw [ih (acc ++ [f :: fs]) (by simp) fun x hx => hr x (by simp [hx])]
          simp

/-- Round trip of the generic renderer: parsing the rendered text of
non-empty rows gives back exactly those rows. -/
theorem parseCSV_renderCSV (rows : List (List (List Char))) (h1 : rows ≠ [])
    (h2 : ∀ r ∈ rows, r ≠ []) : parseCSV (renderCSV rows) = rows := by
  have h := parse_rows rows [] h1 h2
  simpa [parseCSV, renderCSV, csvInit] using h

/-- One exported data row is the fully-quoted rendering of its
unescaped fields, provided the entry id is clean (the date, number and
yes/no fields are clean by construction, and the name/notes fields are
wrapped on both sides). -/
theorem entryRowText_eq_renderRow (ps : List Project) (cs : List Client) (e : TimeEntry)
    (hid : clean e.id.data) :
    entryRowText ps cs e = renderRow (entryFields ps cs e) := by
  unfold entryRowText renderRow entryFields
  simp only [List.map_cons, List.map_nil]
  rw [wrap_eq_self hid,
    wrap_eq_self (clean_isoString e.start),
    wrap_eq_self (clean_endField e),
    wrap_eq_self (clean_renderRat (hoursFromMs e.durationMs)),
    wrap_eq_self (clean_billableField e.billable),
    wrap_eq_self (clean_renderRat (entryRate ps cs e)),
    wrap_eq_self (clean_renderRat (entryAmount ps cs e))]

/-- The export payload is the generic rendering of the header row plus
the per-entry unescaped field grid. -/
theorem exportEntriesCSV_eq (ps : List Project) (cs : List Client) (es : List TimeEntry)
    (h : ∀ e ∈ es, clean e.id.data) :
    exportEntriesCSV ps cs es = renderCSV (headerFields :: es.map (entryFields ps cs)) := by
  unfold exportEntriesCSV renderCSV
  rw [List.map_cons, List.map_map]
  rw [show joinSep [','] headerFields = renderRow headerFields from by decide]
  congr 1
  congr 1
  apply List.map_congr_left
  intro e he
  exact entryRowText_eq_renderRow ps cs e (h e he)

/-- C9 amended: re-parsing the export with a standard delimited-text
parser reconstructs every field value exactly — header plus one row of
unescaped fields per entry, for arbitrary client names, project names
and notes (commas, quotes and newlines included), provided every entry
id is free of comma, quote and newline (the id column is emitted
unescaped). -/
theorem c9_csv_roundtrip (ps : List Project) (cs : List Client) (es : List TimeEntry)
    (h : ∀ e ∈ es, clean e.id.data) :
    parseCSV (exportEntriesCSV ps cs es) = headerFields :: es.map (entryFields ps cs) := by
  rw [exportEntriesCSV_eq ps cs es h]
  apply parseCSV_renderCSV
  · simp
  · intro r hr
    rcases List.mem_cons.mp hr with h1 | h1
    · subst h1
      decide
    · obtain ⟨e, _, rfl⟩ := List.mem_map.mp h1
      simp [entryFields]

/-- Witness for C9 at a concrete entry with hostile notes. -/
theorem c9_witness :
    parseCSV (exportEntriesCSV [] [] [exCsvEntry]) =
      headerFields :: [exCsvEntry].map (entryFields [] []) :=
  c9_csv_roundtrip [] [] [exCsvEntry] (by decide)

set_option maxRecDepth 4000 in
/-- C9 counterexample: the id column is emitted without escaping, so an
entry id containing a comma breaks the field-for-field round trip — the
claim that every field containing a comma, quote or newline is escaped
fails on the id field. -/
theorem c9_counterexample :
    parseCSV (exportEntriesCSV [] [] [exBadIdEntry]) ≠
      headerFields :: [exBadIdEntry].map (entryFields [] []) := by
  decide

end Tracker
